import Mathlib

/-!
Verification of the replica-synchronization engine of the daily-habits
application (src/lib/auth-manager.ts bundle: types + SyncManager, plus
src/lib/github-client.ts and src/lib/encoding-utils.ts).

Shallow embedding conventions:
- ISO timestamp strings are modelled by their epoch-millisecond value as
  an `Int` (JS `new Date(s).getTime()` is a monotone injection on the ISO
  strings the app produces, and the code only ever compares, subtracts or
  refreshes these values).
- A JS `Map` built by `new Map(list.map(h => [h.id, h]))` is modelled as an
  association list with JS Map semantics: first-insertion key order, a
  re-inserted key keeps its position and updates its value.
- A JS `Set` built from a list is modelled by a fold keeping first
  occurrences, preserving insertion order.
- `localStorage` / the remote data.json object are modelled as explicit
  state records threaded through the functions that read and write them.
- JS `a \x7c\x7c b` on strings falls back on the empty string; the optional
  `updatedAt` fallback of the source is modelled with `Option Int`.
-/

namespace Habits

/-- HabitItem from src/lib/auth-manager.ts (types section): one record with
id, text, completed, hidden, createdAt, updatedAt. `updatedAt` is optional
here to model the source pattern `h.updatedAt \x7c\x7c h.createdAt`. -/
structure HabitItem where
  id : String
  text : String
  completed : Bool
  hidden : Bool
  createdAt : Int
  updatedAt : Option Int
  deriving Repr, DecidableEq

/-- Effective modification time: `new Date(h.updatedAt \x7c\x7c h.createdAt).getTime()`. -/
def habitTime (h : HabitItem) : Int :=
  h.updatedAt.getD h.createdAt

/-- AppSettings from the types section: theme, autoSync, syncInterval,
encryptionEnabled. -/
structure AppSettings where
  theme : String
  autoSync : Bool
  syncInterval : Int
  encryptionEnabled : Bool
  deriving Repr, DecidableEq

/-- HabitsData snapshot from the types section. -/
structure HabitsData where
  version : String
  lastSync : Int
  lastResetDate : String
  habits : List HabitItem
  settings : AppSettings
  deriving Repr, DecidableEq

/-- One entry of the localStorage key deleted_habits: \x7bid, deletedAt\x7d. -/
structure Tombstone where
  id : String
  deletedAt : Int
  deriving Repr, DecidableEq

/-- SyncManager.hasConflict: text divergence always conflicts; a completed
flag divergence conflicts iff the effective updatedAt stamps are less than
one hour apart. -/
def hasConflict (l r : HabitItem) : Bool :=
  if l.text ≠ r.text then true
  else if l.completed ≠ r.completed then
    decide ((habitTime l - habitTime r).natAbs < 60 * 60 * 1000)
  else false

/-! JS Map / Set machinery used by detectConflicts, mergeData and
resolveConflicts. A Map is an association list in first-insertion key
order; set updates a key in place or appends a fresh key. -/

/-- JS Map.prototype.set on an association list. -/
def mapSet : List (String × HabitItem) → String → HabitItem → List (String × HabitItem)
  | [], k, v => [(k, v)]
  | (k₀, v₀) :: rest, k, v =>
    if k₀ = k then (k, v) :: rest else (k₀, v₀) :: mapSet rest k v

/-- JS Map.prototype.get. -/
def mapGet (m : List (String × HabitItem)) (k : String) : Option HabitItem :=
  (m.find? (fun p => p.1 == k)).map (·.2)

/-- JS Map.prototype.delete. -/
def mapDelete (m : List (String × HabitItem)) (k : String) : List (String × HabitItem) :=
  m.filter (fun p => !(p.1 == k))

/-- JS Map.prototype.keys, in insertion order. -/
def mapKeys (m : List (String × HabitItem)) : List String :=
  m.map (·.1)

/-- The map `new Map(hs.map(h => [h.id, h]))` of the source. -/
def buildHabitMap (hs : List HabitItem) : List (String × HabitItem) :=
  hs.foldl (fun m h => mapSet m h.id h) []

/-- JS `new Set(xs)` keeping first occurrences in insertion order. -/
def jsSetOfList (xs : List String) : List String :=
  xs.foldl (fun s x => if s.contains x then s else s ++ [x]) []

theorem mem_mapSet {p : String × HabitItem} {m k v} (h : p ∈ mapSet m k v) :
    p = (k, v) ∨ p ∈ m := by
  induction m with
  | nil => simpa [mapSet] using h
  | cons q rest ih =>
    by_cases hk : q.1 = k
    · rcases q with ⟨k₀, v₀⟩
      simp only [mapSet, if_pos hk, List.mem_cons] at h
      rcases h with h | h
      · exact Or.inl h
      · exact Or.inr (List.mem_cons_of_mem _ h)
    · rcases q with ⟨k₀, v₀⟩
      simp only [mapSet, if_neg hk, List.mem_cons] at h
      rcases h with h | h
      · exact Or.inr (by simp [h])
      · rcases ih h with h | h
        · exact Or.inl h
        · exact Or.inr (List.mem_cons_of_mem _ h)

theorem mapKeys_mapSet (m : List (String × HabitItem)) (k v) :
    mapKeys (mapSet m k v) = if k ∈ mapKeys m then mapKeys m else mapKeys m ++ [k] := by
  induction m with
  | nil => simp [mapSet, mapKeys]
  | cons q rest ih =>
    rcases q with ⟨k₀, v₀⟩
    by_cases hk : k₀ = k
    · subst hk
      simp [mapSet, mapKeys]
    · have hne : ¬ k = k₀ := fun h => hk h.symm
      simp only [mapSet, if_neg hk]
      simp only [mapKeys, List.map_cons] at ih ⊢
      rw [ih]
      by_cases hmem : k ∈ List.map (fun x => x.1) rest <;>
        simp [hmem, hne]

theorem mapSet_of_not_mem_keys {m : List (String × HabitItem)} {k : String}
    (h : k ∉ mapKeys m) (v : HabitItem) : mapSet m k v = m ++ [(k, v)] := by
  induction m with
  | nil => simp [mapSet]
  | cons q rest ih =>
    rcases q with ⟨k₀, v₀⟩
    simp only [mapKeys, List.map_cons, List.mem_cons, not_or] at h
    have hk : ¬ k₀ = k := fun hkk => h.1 hkk.symm
    simp only [mapSet, if_neg hk, List.cons_append, List.cons.injEq, true_and]
    exact ih (by simpa [mapKeys] using h.2)

/-- Every entry of buildHabitMap is keyed by its own id and comes from the
input list. -/
theorem buildHabitMap_entry {hs : List HabitItem} {p : String × HabitItem}
    (h : p ∈ buildHabitMap hs) : p.2.id = p.1 ∧ p.2 ∈ hs := by
  suffices H : ∀ (l : List HabitItem) (m : List (String × HabitItem)),
      p ∈ l.foldl (fun m h => mapSet m h.id h) m →
      (p.2.id = p.1 ∧ p.2 ∈ l) ∨ p ∈ m by
    rcases H hs [] h with h' | h'
    · exact h'
    · simp at h'
  intro l
  induction l with
  | nil => intro m hm; exact Or.inr hm
  | cons x t ih =>
    intro m hm
    rcases ih (mapSet m x.id x) hm with h' | h'
    · exact Or.inl ⟨h'.1, List.mem_cons_of_mem _ h'.2⟩
    · rcases mem_mapSet h' with h'' | h''
      · subst h''
        exact Or.inl ⟨rfl, List.mem_cons_self _ _⟩
      · exact Or.inr h''

/-- Key membership in buildHabitMap is id membership in the input list. -/
theorem mem_mapKeys_buildHabitMap {hs : List HabitItem} {k : String} :
    k ∈ mapKeys (buildHabitMap hs) ↔ ∃ h ∈ hs, h.id = k := by
  constructor
  · intro hk
    rcases List.mem_map.1 hk with ⟨p, hp, hpk⟩
    exact ⟨p.2, (buildHabitMap_entry hp).2, by rw [(buildHabitMap_entry hp).1, hpk]⟩
  · rintro ⟨h, hmem, rfl⟩
    suffices H : ∀ (l : List HabitItem) (m : List (String × HabitItem)),
        (h.id ∈ mapKeys m ∨ h ∈ l) →
        h.id ∈ mapKeys (l.foldl (fun m h => mapSet m h.id h) m) by
      exact H hs [] (Or.inr hmem)
    intro l
    induction l with
    | nil => intro m hm; simpa [mapKeys] using hm
    | cons x t ih =>
      intro m hm
      apply ih (mapSet m x.id x)
      rcases hm with hm | hm
      · left; rw [mapKeys_mapSet]; split <;> simp [hm]
      · rcases List.mem_cons.1 hm with rfl | hm
        · left; rw [mapKeys_mapSet]; split <;> simp_all
        · right; exact hm

theorem mapGet_eq_none_iff {m : List (String × HabitItem)} {k : String} :
    mapGet m k = none ↔ k ∉ mapKeys m := by
  simp only [mapGet, Option.map_eq_none', List.find?_eq_none, beq_iff_eq, mapKeys,
    List.mem_map]
  push_neg
  constructor
  · intro H p hp hpk
    exact H p hp hpk
  · intro H p hp hpk
    exact H p hp hpk

theorem mapGet_eq_some {m : List (String × HabitItem)} {k : String} {v : HabitItem}
    (h : mapGet m k = some v) : (k, v) ∈ m := by
  simp only [mapGet, Option.map_eq_some'] at h
  rcases h with ⟨p, hp, hpv⟩
  have hk : p.1 = k := by simpa using List.find?_some hp
  have hmem := List.mem_of_find?_eq_some hp
  rcases p with ⟨k₀, v₀⟩
  simp only at hk hpv
  subst hk
  subst hpv
  exact hmem

/-- The id of a successful lookup is the key looked up. -/
theorem mapGet_buildHabitMap_id {hs : List HabitItem} {k : String} {v : HabitItem}
    (h : mapGet (buildHabitMap hs) k = some v) : v.id = k ∧ v ∈ hs := by
  have := buildHabitMap_entry (mapGet_eq_some h)
  exact ⟨this.1, this.2⟩

theorem contains_iff_mem {l : List String} {a : String} :
    l.contains a = true ↔ a ∈ l :=
  List.elem_iff

theorem mem_jsSetOfList {xs : List String} {x : String} :
    x ∈ jsSetOfList xs ↔ x ∈ xs := by
  have H : ∀ (l acc : List String),
      x ∈ l.foldl (fun s x => if s.contains x then s else s ++ [x]) acc ↔
        x ∈ acc ∨ x ∈ l := by
    intro l
    induction l with
    | nil => intro acc; simp
    | cons y t ih =>
      intro acc
      simp only [List.foldl_cons]
      rw [ih]
      by_cases hy : acc.contains y = true
      · have hmem : y ∈ acc := contains_iff_mem.1 hy
        simp only [hy, if_true, List.mem_cons]
        constructor
        · rintro (h | h)
          · exact Or.inl h
          · exact Or.inr (Or.inr h)
        · rintro (h | rfl | h)
          · exact Or.inl h
          · exact Or.inl hmem
          · exact Or.inr h
      · simp only [Bool.not_eq_true] at hy
        simp only [hy, Bool.false_eq_true, if_false, List.mem_append,
          List.mem_singleton, List.mem_cons]
        tauto
  rw [jsSetOfList, H xs []]
  simp

theorem foldl_jsSet_of_all_mem {l acc : List String}
    (h : ∀ x ∈ l, x ∈ acc) :
    l.foldl (fun s x => if s.contains x then s else s ++ [x]) acc = acc := by
  induction l generalizing acc with
  | nil => rfl
  | cons y t ih =>
    have hy : acc.contains y = true := contains_iff_mem.2 (h y (List.mem_cons_self _ _))
    simp only [List.foldl_cons, hy, if_true]
    exact ih fun x hx => h x (List.mem_cons_of_mem _ hx)

theorem foldl_jsSet_of_nodup {l acc : List String}
    (hnd : l.Nodup) (hdis : ∀ x ∈ l, x ∉ acc) :
    l.foldl (fun s x => if s.contains x then s else s ++ [x]) acc = acc ++ l := by
  induction l generalizing acc with
  | nil => simp
  | cons y t ih =>
    have hy : acc.contains y = false := by
      rw [Bool.eq_false_iff]
      intro hz
      exact hdis y (List.mem_cons_self _ _) (contains_iff_mem.1 hz)
    simp only [List.foldl_cons, hy, Bool.false_eq_true, if_false]
    rw [ih (List.Nodup.of_cons hnd)]
    · simp
    · intro x hx
      simp only [List.mem_append, List.mem_singleton]
      rintro (h | rfl)
      · exact hdis x (List.mem_cons_of_mem _ hx) h
      · exact (List.nodup_cons.1 hnd).1 hx

theorem jsSetOfList_self_append {ks : List String} (h : ks.Nodup) :
    jsSetOfList (ks ++ ks) = ks := by
  have h1 : List.foldl (fun s x => if s.contains x then s else s ++ [x]) [] ks = ks := by
    have := @foldl_jsSet_of_nodup ks [] h (by simp)
    simpa using this
  rw [jsSetOfList, List.foldl_append, h1]
  exact foldl_jsSet_of_all_mem (fun x hx => hx)

/-- Reference conflict verdict, written from the specification text of
section 4.1: conflict iff text differs, or completed differs and the
updatedAt stamps are less than the one-hour window apart. -/
def specConflictVerdict (l r : HabitItem) : Bool :=
  decide (l.text ≠ r.text) ||
    (decide (l.completed ≠ r.completed) &&
      decide ((habitTime l - habitTime r).natAbs < 60 * 60 * 1000))

/-! Tombstone tracker (SyncManager deletion-tracking methods, operating on
the localStorage key deleted_habits, here passed and returned explicitly). -/

/-- Retention window of deletion records: 7 days in milliseconds. -/
def sevenDaysMs : Int := 7 * 24 * 60 * 60 * 1000

/-- SyncManager.getDeletedHabitsIds: the set of all recorded tombstone ids,
with no expiry filtering. -/
def getDeletedHabitsIds (ts : List Tombstone) : List String :=
  ts.map (·.id)

/-- SyncManager.wasRecentlyDeleted: true iff a tombstone for the id exists
and its deletedAt is within the last 7 days. -/
def wasRecentlyDeleted (ts : List Tombstone) (now : Int) (id : String) : Bool :=
  match ts.find? (fun t => t.id == id) with
  | none => false
  | some t => decide (now - sevenDaysMs < t.deletedAt)

/-- SyncManager.cleanupDeletedIds: drop tombstones older than 7 days. -/
def cleanupDeletedIds (ts : List Tombstone) (now : Int) : List Tombstone :=
  ts.filter (fun t => decide (now - sevenDaysMs < t.deletedAt))

/-- SyncManager.markHabitAsDeleted: append a tombstone stamped now unless
one for the id already exists. -/
def markHabitAsDeleted (ts : List Tombstone) (now : Int) (id : String) : List Tombstone :=
  if (ts.find? (fun t => t.id == id)).isSome then ts
  else ts ++ [{ id := id, deletedAt := now }]

/-! Conflict detection and merge (SyncManager.detectConflicts and
SyncManager.mergeData). -/

/-- Conflict type tag of ConflictInfo. -/
inductive ConflictType where
  | modify
  | delete
  | create
  deriving Repr, DecidableEq

/-- ConflictInfo from the types section. The source fields named local and
remote are rendered localItem and remoteItem because local is a Lean
keyword; timestamps are the effective updatedAt stamps. -/
structure ConflictInfo where
  id : String
  type : ConflictType
  localItem : Option HabitItem
  remoteItem : Option HabitItem
  timestampLocal : Int
  timestampRemote : Int
  deriving Repr, DecidableEq

/-- SyncManager.detectConflicts: for every id present in both snapshots,
report a modify conflict when hasConflict holds; one-sided ids are never
conflicts. -/
def detectConflicts (localData remoteData : HabitsData) : List ConflictInfo :=
  let localHabits := buildHabitMap localData.habits
  let remoteHabits := buildHabitMap remoteData.habits
  let allIds := jsSetOfList (mapKeys localHabits ++ mapKeys remoteHabits)
  allIds.filterMap (fun id =>
    match mapGet localHabits id, mapGet remoteHabits id with
    | some lh, some rh =>
      if hasConflict lh rh then
        some { id := id, type := ConflictType.modify,
               localItem := some lh, remoteItem := some rh,
               timestampLocal := habitTime lh, timestampRemote := habitTime rh }
      else none
    | _, _ => none)

/-- One iteration of the merge loop of SyncManager.mergeData for a given id:
skip tombstoned ids; with both sides present keep the newer record (ties
favor local); local-only records are kept; remote-only records are kept if
newer than the local lastSync, or else if not recently deleted. -/
def mergePick (lm rm : List (String × HabitItem)) (deletedIds : List String)
    (ts : List Tombstone) (localLastSync now : Int) (id : String) : Option HabitItem :=
  if deletedIds.contains id then none
  else
    match mapGet lm id, mapGet rm id with
    | some lh, some rh => some (if habitTime rh ≤ habitTime lh then lh else rh)
    | some lh, none => some lh
    | none, some rh =>
      if localLastSync < habitTime rh then some rh
      else if wasRecentlyDeleted ts now id then none
      else some rh
    | none, none => none

/-- Stable insertion of a record in front of the first strictly newer
createdAt; together with sortByCreatedAt this models the stable JS
Array.prototype.sort with comparator a.createdAt minus b.createdAt. -/
def insertByCreatedAt (h : HabitItem) : List HabitItem → List HabitItem
  | [] => [h]
  | x :: xs => if x.createdAt < h.createdAt then x :: insertByCreatedAt h xs else h :: x :: xs

/-- Stable sort of the merged records by ascending createdAt. -/
def sortByCreatedAt : List HabitItem → List HabitItem
  | [] => []
  | h :: hs => insertByCreatedAt h (sortByCreatedAt hs)

/-- SyncManager.mergeData. Returns the merged snapshot together with the
tombstone list left in localStorage after the cleanupDeletedIds call that
mergeData performs after its merge loop. -/
def mergeData (localData remoteData : HabitsData) (ts : List Tombstone) (now : Int) :
    HabitsData × List Tombstone :=
  let lm := buildHabitMap localData.habits
  let rm := buildHabitMap remoteData.habits
  let deletedIds := getDeletedHabitsIds ts
  let allIds := jsSetOfList (mapKeys lm ++ mapKeys rm)
  let mergedHabits := allIds.filterMap (mergePick lm rm deletedIds ts localData.lastSync now)
  let newerMeta := if remoteData.lastSync ≤ localData.lastSync then localData else remoteData
  ({ newerMeta with habits := sortByCreatedAt mergedHabits, lastSync := now },
   cleanupDeletedIds ts now)

theorem mem_insertByCreatedAt {a h : HabitItem} {l : List HabitItem} :
    a ∈ insertByCreatedAt h l ↔ a = h ∨ a ∈ l := by
  induction l with
  | nil => simp [insertByCreatedAt]
  | cons x xs ih =>
    by_cases hx : x.createdAt < h.createdAt
    · simp only [insertByCreatedAt, if_pos hx, List.mem_cons, ih]
      tauto
    · simp only [insertByCreatedAt, if_neg hx, List.mem_cons]

theorem mem_sortByCreatedAt {a : HabitItem} {l : List HabitItem} :
    a ∈ sortByCreatedAt l ↔ a ∈ l := by
  induction l with
  | nil => simp [sortByCreatedAt]
  | cons h hs ih =>
    simp only [sortByCreatedAt, mem_insertByCreatedAt, ih, List.mem_cons]

/-- A stable sort leaves an already sorted list unchanged. -/
theorem sortByCreatedAt_of_sorted {l : List HabitItem}
    (h : l.Chain' (fun a b => a.createdAt ≤ b.createdAt)) :
    sortByCreatedAt l = l := by
  induction l with
  | nil => rfl
  | cons x xs ih =>
    have hc := List.chain'_cons'.1 h
    rw [sortByCreatedAt, ih hc.2]
    cases xs with
    | nil => rfl
    | cons y ys =>
      have hxy : x.createdAt ≤ y.createdAt := hc.1 y rfl
      simp [insertByCreatedAt, not_lt.2 hxy]

/-- Decidable test that a record list holds some record with the given id. -/
def hasId (hs : List HabitItem) (id : String) : Bool :=
  hs.any (fun h => h.id == id)

theorem hasId_iff {hs : List HabitItem} {id : String} :
    hasId hs id = true ↔ ∃ h ∈ hs, h.id = id := by
  simp [hasId, List.any_eq_true]

/-- The record emitted by the merge loop for an id carries that id, and the
id is never in the tombstone id set. -/
theorem mergePick_eq_some {lhs rhs : List HabitItem} {deleted : List String}
    {ts : List Tombstone} {ls now : Int} {j : String} {h : HabitItem}
    (hp : mergePick (buildHabitMap lhs) (buildHabitMap rhs) deleted ts ls now j = some h) :
    h.id = j ∧ deleted.contains j = false := by
  unfold mergePick at hp
  by_cases hdel : deleted.contains j = true
  · simp [contains_iff_mem.1 hdel] at hp
  · have hdel' : deleted.contains j = false := by
      cases hc : deleted.contains j
      · rfl
      · exact absurd hc hdel
    have hnot : j ∉ deleted := fun hmem => hdel (contains_iff_mem.2 hmem)
    refine ⟨?_, hdel'⟩
    rw [if_neg (by simpa using hnot)] at hp
    cases hgl : mapGet (buildHabitMap lhs) j with
    | some lh =>
      cases hgr : mapGet (buildHabitMap rhs) j with
      | some rh =>
        rw [hgl, hgr] at hp
        simp only [Option.some.injEq] at hp
        subst hp
        by_cases hcmp : habitTime rh ≤ habitTime lh
        · simp only [if_pos hcmp]
          exact (mapGet_buildHabitMap_id hgl).1
        · simp only [if_neg hcmp]
          exact (mapGet_buildHabitMap_id hgr).1
      | none =>
        rw [hgl, hgr] at hp
        simp only [Option.some.injEq] at hp
        subst hp
        exact (mapGet_buildHabitMap_id hgl).1
    | none =>
      cases hgr : mapGet (buildHabitMap rhs) j with
      | some rh =>
        rw [hgl, hgr] at hp
        by_cases h1 : ls < habitTime rh
        · simp only [if_pos h1, Option.some.injEq] at hp
          subst hp
          exact (mapGet_buildHabitMap_id hgr).1
        · simp only [if_neg h1] at hp
          by_cases h2 : wasRecentlyDeleted ts now j = true
          · simp [h2] at hp
          · simp only [Bool.not_eq_true] at h2
            simp only [h2, Bool.false_eq_true, if_false, Option.some.injEq] at hp
            subst hp
            exact (mapGet_buildHabitMap_id hgr).1
      | none =>
        rw [hgl, hgr] at hp
        simp at hp

/-- Membership in the merged record list is production by the merge loop at
some id of the union of the two key sets. -/
theorem mem_habits_mergeData {ld rd : HabitsData} {ts : List Tombstone} {now : Int}
    {h : HabitItem} :
    h ∈ (mergeData ld rd ts now).1.habits ↔
      ∃ j ∈ jsSetOfList
          (mapKeys (buildHabitMap ld.habits) ++ mapKeys (buildHabitMap rd.habits)),
        mergePick (buildHabitMap ld.habits) (buildHabitMap rd.habits)
          (getDeletedHabitsIds ts) ts ld.lastSync now j = some h := by
  simp only [mergeData, mem_sortByCreatedAt, List.mem_filterMap]

/-- A record present locally and not tombstoned survives every merge,
whether or not the remote side also has it. -/
theorem mergeData_keeps_local (ld rd : HabitsData) (ts : List Tombstone) (now : Int)
    (id : String) (hl : hasId ld.habits id = true)
    (hts : (getDeletedHabitsIds ts).contains id = false) :
    hasId (mergeData ld rd ts now).1.habits id = true := by
  have hts' : id ∉ getDeletedHabitsIds ts := by
    intro hmem
    rw [contains_iff_mem.2 hmem] at hts
    cases hts
  rcases hasId_iff.1 hl with ⟨h, hmem, hid⟩
  have hkey : id ∈ mapKeys (buildHabitMap ld.habits) :=
    mem_mapKeys_buildHabitMap.2 ⟨h, hmem, hid⟩
  have hget : ∃ lh, mapGet (buildHabitMap ld.habits) id = some lh := by
    cases hg : mapGet (buildHabitMap ld.habits) id with
    | none => exact absurd (mapGet_eq_none_iff.1 hg) (by simp [hkey])
    | some lh => exact ⟨lh, rfl⟩
  rcases hget with ⟨lh, hgl⟩
  have hlh := mapGet_buildHabitMap_id hgl
  have hin : id ∈ jsSetOfList
      (mapKeys (buildHabitMap ld.habits) ++ mapKeys (buildHabitMap rd.habits)) :=
    mem_jsSetOfList.2 (List.mem_append.2 (Or.inl hkey))
  cases hgr : mapGet (buildHabitMap rd.habits) id with
  | none =>
    refine hasId_iff.2 ⟨lh, mem_habits_mergeData.2 ⟨id, hin, ?_⟩, hlh.1⟩
    unfold mergePick
    simp [hts', hgl, hgr]
  | some rh =>
    have hrh := mapGet_buildHabitMap_id hgr
    by_cases hcmp : habitTime rh ≤ habitTime lh
    · refine hasId_iff.2 ⟨lh, mem_habits_mergeData.2 ⟨id, hin, ?_⟩, hlh.1⟩
      unfold mergePick
      simp [hts', hgl, hgr, hcmp]
    · refine hasId_iff.2 ⟨rh, mem_habits_mergeData.2 ⟨id, hin, ?_⟩, hrh.1⟩
      unfold mergePick
      simp [hts', hgl, hgr, hcmp]

/-- C2: a tombstoned id is absent from every merge result, even while the
tombstone is unexpired and even when a snapshot still carries the record. -/
theorem mergeData_tombstone_suppression (ld rd : HabitsData) (ts : List Tombstone)
    (now₀ now : Int) (id : String)
    (hunexp : ∃ t ∈ markHabitAsDeleted ts now₀ id,
      t.id = id ∧ now - sevenDaysMs < t.deletedAt) :
    hasId (mergeData ld rd (markHabitAsDeleted ts now₀ id) now).1.habits id = false := by
  rcases hunexp with ⟨t, ht, htid, -⟩
  rw [Bool.eq_false_iff]
  intro htrue
  rcases hasId_iff.1 htrue with ⟨h, hmem, hid⟩
  rcases mem_habits_mergeData.1 hmem with ⟨j, -, hpick⟩
  have hj := mergePick_eq_some hpick
  have hidj : j = id := by rw [← hj.1, hid]
  subst hidj
  have hin : (getDeletedHabitsIds (markHabitAsDeleted ts now₀ j)).contains j = true :=
    contains_iff_mem.2 (List.mem_map.2 ⟨t, ht, htid⟩)
  rw [hj.2] at hin
  exact Bool.false_ne_true hin

/-- C4: an id present locally, absent remotely and not tombstoned appears
in the merged result. -/
theorem mergeData_no_silent_loss (ld rd : HabitsData) (ts : List Tombstone) (now : Int)
    (id : String) (hl : hasId ld.habits id = true) (hr : hasId rd.habits id = false)
    (hts : (getDeletedHabitsIds ts).contains id = false) :
    hasId (mergeData ld rd ts now).1.habits id = true :=
  mergeData_keeps_local ld rd ts now id hl hts

/-- Settings literal used by concrete inputs below. -/
def baseSettings : AppSettings :=
  { theme := "light", autoSync := true, syncInterval := 300000, encryptionEnabled := true }

/-- Concrete record for the tombstone-expiry counterexample. -/
def c3Habit : HabitItem :=
  { id := "a", text := "x", completed := false, hidden := false,
    createdAt := 0, updatedAt := some 0 }

/-- Local snapshot still holding the record whose tombstone has expired. -/
def c3Local : HabitsData :=
  { version := "1.0", lastSync := 0, lastResetDate := "d",
    habits := [c3Habit], settings := baseSettings }

/-- Remote snapshot without the record. -/
def c3Remote : HabitsData :=
  { version := "1.0", lastSync := 0, lastResetDate := "d",
    habits := [], settings := baseSettings }

/-- A tombstone for id a recorded at time 0. -/
def c3Ts : List Tombstone := [{ id := "a", deletedAt := 0 }]

/-- A merge instant one millisecond past the tombstone retention window. -/
def c3Now : Int := sevenDaysMs + 1

/-- Witness instantiating C2: id a, freshly tombstoned at time 5, is kept
out of a merge run at time 6 although the local snapshot carries it. -/
theorem mergeData_tombstone_suppression_witness :
    hasId (mergeData c3Local c3Remote (markHabitAsDeleted [] 5 "a") 6).1.habits "a"
      = false :=
  mergeData_tombstone_suppression c3Local c3Remote [] 5 6 "a" (by decide)

/-- Witness instantiating C4: id a exists only locally, no tombstones, and
survives the merge. -/
theorem mergeData_no_silent_loss_witness :
    hasId (mergeData c3Local c3Remote [] 6).1.habits "a" = true :=
  mergeData_no_silent_loss c3Local c3Remote [] 6 "a" (by decide) (by decide) (by decide)

/-- C3 counterexample: at merge time the tombstone for id a is already
expired and the local snapshot still contains the record, yet the merge
performed at that instant still suppresses the id, because
getDeletedHabitsIds does not filter by age and cleanupDeletedIds only runs
after the merge loop. -/
theorem mergeData_expired_tombstone_still_suppresses :
    (∃ t ∈ c3Ts, t.id = "a" ∧ t.deletedAt ≤ c3Now - sevenDaysMs)
    ∧ hasId c3Local.habits "a" = true
    ∧ hasId (mergeData c3Local c3Remote c3Ts c3Now).1.habits "a" = false := by
  refine ⟨⟨{ id := "a", deletedAt := 0 }, by simp [c3Ts], rfl, by decide⟩, rfl, rfl⟩

/-- C3 amended: the sweep runs after the merge loop, so it is the tombstone
list returned by a merge that has expired tombstones removed; a subsequent
merge using that swept list no longer suppresses the id and keeps the
record if the local snapshot still contains it. -/
theorem mergeData_sweeps_after_loop (ld rd : HabitsData) (ts : List Tombstone)
    (now : Int) (id : String) (ld2 rd2 : HabitsData) (now2 : Int)
    (hexp : ∀ t ∈ ts, t.id = id → t.deletedAt ≤ now - sevenDaysMs)
    (hl : hasId ld2.habits id = true) :
    (getDeletedHabitsIds (mergeData ld rd ts now).2).contains id = false
    ∧ hasId (mergeData ld2 rd2 (mergeData ld rd ts now).2 now2).1.habits id = true := by
  have hswept : (getDeletedHabitsIds (mergeData ld rd ts now).2).contains id = false := by
    rw [Bool.eq_false_iff]
    intro hc
    rcases List.mem_map.1 (contains_iff_mem.1 hc) with ⟨t, htmem, htid⟩
    have h1 : t ∈ cleanupDeletedIds ts now := by
      simpa [mergeData] using htmem
    rw [cleanupDeletedIds, List.mem_filter] at h1
    have h2 : now - sevenDaysMs < t.deletedAt := by simpa using h1.2
    exact absurd (hexp t h1.1 htid) (not_le.2 h2)
  exact ⟨hswept, mergeData_keeps_local ld2 rd2 _ now2 id hl hswept⟩

/-- Witness instantiating the C3 amended theorem on a fully swept list. -/
theorem mergeData_sweeps_after_loop_witness :
    (getDeletedHabitsIds (mergeData c3Local c3Remote c3Ts c3Now).2).contains "a" = false
    ∧ hasId (mergeData c3Local c3Remote (mergeData c3Local c3Remote c3Ts c3Now).2
        c3Now).1.habits "a" = true :=
  mergeData_sweeps_after_loop c3Local c3Remote c3Ts c3Now "a" c3Local c3Remote c3Now
    (by decide) (by decide)

/-- C7 amended: the merged metadata comes wholesale from whichever side has
the newer lastSync (ties favoring local), the settings included with no
overlay, and the output lastSync is the merge instant. -/
theorem mergeData_metadata (ld rd : HabitsData) (ts : List Tombstone) (now : Int) :
    (mergeData ld rd ts now).1.version
      = (if rd.lastSync ≤ ld.lastSync then ld else rd).version
    ∧ (mergeData ld rd ts now).1.lastResetDate
      = (if rd.lastSync ≤ ld.lastSync then ld else rd).lastResetDate
    ∧ (mergeData ld rd ts now).1.settings
      = (if rd.lastSync ≤ ld.lastSync then ld else rd).settings
    ∧ (mergeData ld rd ts now).1.lastSync = now :=
  ⟨rfl, rfl, rfl, rfl⟩

/-- The settings overlay described by the specification: remote keys first,
local keys overriding on collision. Every AppSettings key is always
present on the local side, so the overlay is the local settings. -/
def specOverlaySettings (remoteS localS : AppSettings) : AppSettings :=
  { theme := localS.theme, autoSync := localS.autoSync,
    syncInterval := localS.syncInterval, encryptionEnabled := localS.encryptionEnabled }

/-- Local snapshot of the settings-overlay counterexample (older lastSync,
light theme). -/
def c7Local : HabitsData :=
  { version := "1.0", lastSync := 0, lastResetDate := "dl", habits := [],
    settings := baseSettings }

/-- Remote snapshot of the settings-overlay counterexample (newer lastSync,
different settings). -/
def c7Remote : HabitsData :=
  { version := "1.1", lastSync := 5, lastResetDate := "dr", habits := [],
    settings := { theme := "dark", autoSync := false, syncInterval := 60000,
                  encryptionEnabled := false } }

/-- C7 counterexample: when the remote side is newer the merged settings
are the remote settings verbatim, not the overlay with local keys
overriding that the specification describes. -/
theorem mergeData_no_settings_overlay :
    (mergeData c7Local c7Remote [] 10).1.settings = c7Remote.settings
    ∧ (mergeData c7Local c7Remote [] 10).1.settings
        ≠ specOverlaySettings c7Remote.settings c7Local.settings := by
  refine ⟨rfl, ?_⟩
  intro h
  have := congrArg AppSettings.theme h
  simp [specOverlaySettings, c7Local, c7Remote, baseSettings, mergeData] at this

/-- With pairwise distinct ids, building the map appends every entry. -/
theorem buildHabitMap_eq_of_nodup {hs : List HabitItem}
    (hnd : (hs.map (·.id)).Nodup) :
    buildHabitMap hs = hs.map (fun h => (h.id, h)) := by
  suffices H : ∀ (l : List HabitItem) (m : List (String × HabitItem)),
      (l.map (·.id)).Nodup → (∀ x ∈ l, x.id ∉ mapKeys m) →
      l.foldl (fun m h => mapSet m h.id h) m = m ++ l.map (fun h => (h.id, h)) by
    simpa using H hs [] hnd (by simp [mapKeys])
  intro l
  induction l with
  | nil => intro m _ _; simp
  | cons x t ih =>
    intro m hnd' hdis
    simp only [List.foldl_cons]
    rw [mapSet_of_not_mem_keys (hdis x (List.mem_cons_self _ _)) x]
    rw [ih (m ++ [(x.id, x)]) ?_ ?_]
    · simp
    · simpa using (List.nodup_cons.1 (by simpa using hnd')).2
    · intro y hy hyk
      simp only [mapKeys, List.map_append, List.map_cons, List.map_nil,
        List.mem_append, List.mem_singleton] at hyk
      rcases hyk with hyk | hyk
      · exact hdis y (List.mem_cons_of_mem _ hy) (by simpa [mapKeys] using hyk)
      · have hx : x.id ∉ t.map (·.id) := (List.nodup_cons.1 (by simpa using hnd')).1
        exact hx (hyk ▸ List.mem_map.2 ⟨y, hy, rfl⟩)

/-- Lookup in the literal pair list keyed by distinct ids. -/
theorem mapGet_map_pair {hs : List HabitItem} (hnd : (hs.map (·.id)).Nodup)
    {h : HabitItem} (hmem : h ∈ hs) :
    mapGet (hs.map (fun x => (x.id, x))) h.id = some h := by
  induction hs with
  | nil => cases hmem
  | cons x t ih =>
    have hnd' : (x.id :: t.map (·.id)).Nodup := by simpa using hnd
    rcases List.mem_cons.1 hmem with rfl | hmem'
    · simp only [List.map_cons, mapGet]
      rw [List.find?_cons_of_pos _ (by simp)]
      rfl
    · have hx : x.id ≠ h.id := by
        intro he
        exact (List.nodup_cons.1 hnd').1
          (by rw [he]; exact List.mem_map.2 ⟨h, hmem', rfl⟩)
      simp only [List.map_cons, mapGet]
      rw [List.find?_cons_of_neg _ (by simp [hx])]
      exact ih (by simpa using (List.nodup_cons.1 hnd').2) hmem'

/-- Rebuilding a record list from its own id column through a faithful
picker is the identity. -/
theorem filterMap_ids {hs : List HabitItem} {pk : String → Option HabitItem}
    (H : ∀ h ∈ hs, pk h.id = some h) :
    List.filterMap pk (hs.map (·.id)) = hs := by
  induction hs with
  | nil => rfl
  | cons x t ih =>
    simp only [List.map_cons, List.filterMap_cons, H x (List.mem_cons_self _ _)]
    rw [ih fun h hm => H h (List.mem_cons_of_mem _ hm)]

theorem hasConflict_self (h : HabitItem) : hasConflict h h = false := by
  simp [hasConflict]

/-- A snapshot never conflicts with itself, duplicates and all. -/
theorem detectConflicts_self (s : HabitsData) : detectConflicts s s = [] := by
  unfold detectConflicts
  rw [List.filterMap_eq_nil_iff]
  intro id _
  cases hg : mapGet (buildHabitMap s.habits) id with
  | none => simp [hg]
  | some h => simp [hg, hasConflict_self]

/-- Trivial snapshot for the idempotence counterexample. -/
def c9Data : HabitsData :=
  { version := "1.0", lastSync := 0, lastResetDate := "d", habits := [],
    settings := baseSettings }

/-- Single-record snapshot witnessing the amended idempotence theorem. -/
def c9Sorted : HabitsData :=
  { version := "1.0", lastSync := 3, lastResetDate := "d",
    habits := [{ id := "a", text := "x", completed := false, hidden := false,
                 createdAt := 1, updatedAt := some 2 }],
    settings := baseSettings }

/-- C9 counterexample: merging a snapshot with itself is conflict free but
does not return that same snapshot, because the output lastSync is stamped
with the merge instant. -/
theorem mergeData_self_not_identity :
    detectConflicts c9Data c9Data = []
    ∧ (mergeData c9Data c9Data [] 1).1 ≠ c9Data := by
  refine ⟨detectConflicts_self c9Data, ?_⟩
  intro h
  have h1 := congrArg HabitsData.lastSync h
  simp [mergeData, c9Data] at h1

/-- C9 amended: with no tombstones, distinct ids and habits already in
createdAt order, merging a snapshot with itself detects no conflicts and
returns that same snapshot except that lastSync becomes the merge
instant. -/
theorem mergeData_self_refresh (s : HabitsData) (now : Int)
    (hnd : (s.habits.map (·.id)).Nodup)
    (hsorted : s.habits.Chain' (fun a b => a.createdAt ≤ b.createdAt)) :
    detectConflicts s s = []
    ∧ (mergeData s s [] now).1 = { s with lastSync := now }
    ∧ (mergeData s s [] now).2 = [] := by
  refine ⟨detectConflicts_self s, ?_, rfl⟩
  have hbm : buildHabitMap s.habits = s.habits.map (fun h => (h.id, h)) :=
    buildHabitMap_eq_of_nodup hnd
  have hkeys : mapKeys (buildHabitMap s.habits) = s.habits.map (·.id) := by
    rw [hbm]; simp [mapKeys]
  have hall : jsSetOfList
      (mapKeys (buildHabitMap s.habits) ++ mapKeys (buildHabitMap s.habits))
      = s.habits.map (·.id) := by
    rw [hkeys]; exact jsSetOfList_self_append hnd
  have hpick : ∀ h ∈ s.habits,
      mergePick (buildHabitMap s.habits) (buildHabitMap s.habits)
        (getDeletedHabitsIds []) [] s.lastSync now h.id = some h := by
    intro h hmem
    unfold mergePick
    rw [hbm]
    rw [mapGet_map_pair hnd hmem]
    simp [getDeletedHabitsIds]
  simp only [mergeData, hall]
  rw [filterMap_ids hpick, sortByCreatedAt_of_sorted hsorted, ite_self]

/-- Witness instantiating the amended idempotence theorem. -/
theorem mergeData_self_refresh_witness :
    detectConflicts c9Sorted c9Sorted = []
    ∧ (mergeData c9Sorted c9Sorted [] 9).1 = { c9Sorted with lastSync := 9 }
    ∧ (mergeData c9Sorted c9Sorted [] 9).2 = [] :=
  mergeData_self_refresh c9Sorted 9 (by simp [c9Sorted])
    (by simp [c9Sorted, List.chain'_singleton])

/-- C5: the conflict verdict of the code equals the reference definition;
in particular a difference only in hidden never conflicts, and a record
never conflicts with itself. -/
theorem hasConflict_eq_spec : ∀ (l r : HabitItem) (b : Bool),
    hasConflict l r = specConflictVerdict l r
    ∧ hasConflict l { l with hidden := b } = false
    ∧ hasConflict l l = false := by
  intro l r b
  refine ⟨?_, ?_, ?_⟩
  · by_cases ht : l.text = r.text <;> by_cases hc : l.completed = r.completed <;>
      simp [hasConflict, specConflictVerdict, ht, hc]
  · simp [hasConflict]
  · simp [hasConflict]

/-! Sync cycle (SyncManager.sync with its collaborators getLocalData,
getRemoteData, saveLocalData and saveRemoteData). localStorage, the
encrypted store and the remote data.json object are threaded as an
explicit World value. -/

/-- Error categories of SyncError in the types section. -/
inductive SyncErrorType where
  | network
  | conflict
  | auth
  | storage
  deriving Repr, DecidableEq

/-- Outcome of one SyncManager.sync call: the conflict result (success
false plus the conflict list), the success result carrying the merged
snapshot, or a thrown SyncError. -/
inductive SyncOutcome where
  | conflictFound (conflicts : List ConflictInfo)
  | succeeded (merged : HabitsData)
  | failed (t : SyncErrorType)
  deriving Repr, DecidableEq

/-- One entry of the localStorage key dailyTodos read by getLocalData;
hidden may be absent there. -/
structure StoredTodo where
  id : String
  text : String
  completed : Bool
  hidden : Option Bool
  createdAt : Int
  deriving Repr, DecidableEq

/-- SyncConfig of the SyncManager. -/
structure SyncConfig where
  autoSync : Bool
  syncInterval : Int
  retryAttempts : Nat
  retryDelay : Int
  deriving Repr, DecidableEq

/-- The constructor defaults of SyncManager.config: autoSync on, 5 minute
interval, 3 retry attempts, 2 second retry delay. -/
def defaultSyncConfig : SyncConfig :=
  { autoSync := true, syncInterval := 5 * 60 * 1000, retryAttempts := 3,
    retryDelay := 2000 }

/-- The stores the sync cycle reads and writes. remoteRejectsWrite models a
concurrent writer having changed the remote object, so that the
sha-conditioned content write is rejected by the store. -/
structure World where
  dailyTodos : Option (List StoredTodo)
  lastResetDate : Option String
  habitsDataStore : Option HabitsData
  deletedHabits : List Tombstone
  remote : Option HabitsData
  remoteRejectsWrite : Bool
  deriving Repr, DecidableEq

/-- SyncManager.getDefaultHabitsData: version 1.0, both stamps at the
current instant, no habits, default settings. -/
def getDefaultHabitsData (now : Int) (nowDateStr : String) : HabitsData :=
  { version := "1.0", lastSync := now, lastResetDate := nowDateStr, habits := [],
    settings := { theme := "light", autoSync := true, syncInterval := 300000,
                  encryptionEnabled := true } }

/-- SyncManager.getLocalData: rebuild a snapshot from the dailyTodos store,
stamping lastSync now, copying createdAt into updatedAt and defaulting
hidden to false; default data when the store is empty. -/
def getLocalData (w : World) (cfg : SyncConfig) (now : Int) (nowDateStr : String) :
    HabitsData :=
  match w.dailyTodos with
  | some todos =>
    { version := "1.0", lastSync := now,
      lastResetDate := w.lastResetDate.getD nowDateStr,
      habits := todos.map (fun t =>
        { id := t.id, text := t.text, completed := t.completed,
          hidden := t.hidden.getD false, createdAt := t.createdAt,
          updatedAt := some t.createdAt }),
      settings := { theme := "light", autoSync := cfg.autoSync,
                    syncInterval := cfg.syncInterval, encryptionEnabled := true } }
  | none => getDefaultHabitsData now nowDateStr

/-- SyncManager.getRemoteData with its catch: absence of the remote file
yields the default data. -/
def syncRemoteView (w : World) (now : Int) (nowDateStr : String) : HabitsData :=
  match w.remote with
  | some d => d
  | none => getDefaultHabitsData now nowDateStr

/-- The local snapshot a sync cycle fetches. -/
def syncLocalView (w : World) (cfg : SyncConfig) (now : Int) (nowDateStr : String) :
    HabitsData :=
  getLocalData w cfg now nowDateStr

/-- SyncManager.saveLocalData: write the records back to dailyTodos and
lastResetDate and the whole snapshot to the encrypted store. -/
def saveLocalData (w : World) (d : HabitsData) : World :=
  { w with
    dailyTodos := some (d.habits.map (fun h =>
      { id := h.id, text := h.text, completed := h.completed,
        hidden := some h.hidden, createdAt := h.createdAt })),
    lastResetDate := some d.lastResetDate,
    habitsDataStore := some d }

/-- SyncManager.saveRemoteData: fetch the current sha of data.json and
issue a sha-conditioned write; a rejected write is surfaced as a SyncError
of category network. -/
def saveRemoteData (w : World) (d : HabitsData) : Except SyncErrorType (Option HabitsData) :=
  if w.remoteRejectsWrite then Except.error SyncErrorType.network
  else Except.ok (some d)

/-- SyncManager.sync: fetch both snapshots, stop on conflicts without any
write, else merge once and write to both stores; a rejected remote write
surfaces the SyncError after the single attempt. The third component
counts the saveRemoteData calls the cycle performed. -/
def sync (w : World) (cfg : SyncConfig) (now : Int) (nowDateStr : String) :
    SyncOutcome × World × Nat :=
  let localData := syncLocalView w cfg now nowDateStr
  let remoteData := syncRemoteView w now nowDateStr
  let conflicts := detectConflicts localData remoteData
  if conflicts.length > 0 then
    (SyncOutcome.conflictFound conflicts, w, 0)
  else
    let merged := (mergeData localData remoteData w.deletedHabits now).1
    let ts2 := (mergeData localData remoteData w.deletedHabits now).2
    let w2 := { saveLocalData w merged with deletedHabits := ts2 }
    match saveRemoteData w merged with
    | Except.error e => (SyncOutcome.failed e, w2, 1)
    | Except.ok newRemote => (SyncOutcome.succeeded merged, { w2 with remote := newRemote }, 1)

/-- C6: when conflict detection reports at least one conflict the cycle
stops with the conflict outcome, performs no remote write attempt and
leaves every store exactly as it was. -/
theorem sync_conflict_no_write (w : World) (cfg : SyncConfig) (now : Int)
    (nowDateStr : String)
    (hc : detectConflicts (syncLocalView w cfg now nowDateStr)
      (syncRemoteView w now nowDateStr) ≠ []) :
    sync w cfg now nowDateStr =
      (SyncOutcome.conflictFound (detectConflicts (syncLocalView w cfg now nowDateStr)
        (syncRemoteView w now nowDateStr)), w, 0) := by
  unfold sync
  rw [if_pos (List.length_pos.2 hc)]

/-- Conflicting world used to witness C6: the two sides disagree on the
text of record a. -/
def c6World : World :=
  { dailyTodos := some [{ id := "a", text := "x", completed := false,
                          hidden := none, createdAt := 0 }],
    lastResetDate := some "d",
    habitsDataStore := none,
    deletedHabits := [],
    remote := some { version := "1.0", lastSync := 0, lastResetDate := "d",
                     habits := [{ id := "a", text := "y", completed := false,
                                  hidden := false, createdAt := 0,
                                  updatedAt := some 0 }],
                     settings := baseSettings },
    remoteRejectsWrite := false }

/-- Witness instantiating C6 on a world with a genuine text conflict. -/
theorem sync_conflict_no_write_witness :
    sync c6World defaultSyncConfig 2 "d" =
      (SyncOutcome.conflictFound (detectConflicts
        (syncLocalView c6World defaultSyncConfig 2 "d")
        (syncRemoteView c6World 2 "d")), c6World, 0) :=
  sync_conflict_no_write c6World defaultSyncConfig 2 "d" (by decide)

/-- C1 amended: a rejected remote write is not retried inside the cycle:
the conflict-free cycle performs exactly one write attempt and surfaces a
SyncError of category network, though the config carries the unused
retryAttempts and retryDelay fields. -/
theorem sync_rejected_write_not_retried (w : World) (cfg : SyncConfig) (now : Int)
    (nowDateStr : String) (hrej : w.remoteRejectsWrite = true)
    (hnc : detectConflicts (syncLocalView w cfg now nowDateStr)
      (syncRemoteView w now nowDateStr) = []) :
    (sync w cfg now nowDateStr).1 = SyncOutcome.failed SyncErrorType.network
    ∧ (sync w cfg now nowDateStr).2.2 = 1 := by
  simp only [sync, hnc, List.length_nil, gt_iff_lt, lt_irrefl, if_false,
    saveRemoteData, hrej, if_true]
  exact ⟨trivial, trivial⟩

/-- World with empty stores and a remote store that rejects the
sha-conditioned write. -/
def c1World : World :=
  { dailyTodos := some [], lastResetDate := some "d", habitsDataStore := none,
    deletedHabits := [], remote := none, remoteRejectsWrite := true }

/-- Witness instantiating the C1 amended theorem. -/
theorem sync_rejected_write_not_retried_witness :
    (sync c1World defaultSyncConfig 2 "d").1 = SyncOutcome.failed SyncErrorType.network
    ∧ (sync c1World defaultSyncConfig 2 "d").2.2 = 1 :=
  sync_rejected_write_not_retried c1World defaultSyncConfig 2 "d" rfl (by decide)

/-- C1 counterexample: on a conflict-free cycle whose remote write is
rejected because the object changed concurrently, the cycle performs one
single write attempt, not the three of the alleged retry budget, and the
surfaced error is of category network, not storage. -/
theorem sync_no_retry_counterexample :
    defaultSyncConfig.retryAttempts = 3
    ∧ (sync c1World defaultSyncConfig 2 "d").2.2 = 1
    ∧ (sync c1World defaultSyncConfig 2 "d").1 = SyncOutcome.failed SyncErrorType.network
    ∧ (sync c1World defaultSyncConfig 2 "d").1 ≠ SyncOutcome.failed SyncErrorType.storage := by
  refine ⟨rfl, rfl, rfl, ?_⟩
  intro h
  rw [show (sync c1World defaultSyncConfig 2 "d").1
      = SyncOutcome.failed SyncErrorType.network from rfl] at h
  cases h

/-! Conflict resolution (SyncManager.resolveConflicts and
SyncManager.mergeHabitItems). -/

/-- ConflictResolution values local, remote, merge, manual of the types
section, prefixed res because local is a Lean keyword. -/
inductive ConflictResolution where
  | resLocal
  | resRemote
  | resMerge
  | resManual
  deriving Repr, DecidableEq

/-- SyncManager.mergeHabitItems: take the record with the newer effective
updatedAt (ties favor local), keep its text unless empty, its completed and
hidden flags, and stamp updatedAt with the resolution instant. -/
def mergeHabitItems (lh rh : HabitItem) (now : Int) : HabitItem :=
  let newer := if habitTime rh ≤ habitTime lh then lh else rh
  let older := if habitTime rh ≤ habitTime lh then rh else lh
  { newer with
    text := if newer.text = "" then older.text else newer.text,
    completed := newer.completed,
    hidden := newer.hidden,
    updatedAt := some now }

/-- One arm of the resolution switch of SyncManager.resolveConflicts,
applied to the resolved map: local keeps the map entry, remote adopts the
remote record or deletes the id, merge splices both records, and the
manual value has no switch case so leaves the map unchanged. -/
def applyResolution (m : List (String × HabitItem)) (c : ConflictInfo)
    (r : ConflictResolution) (now : Int) : List (String × HabitItem) :=
  match r with
  | ConflictResolution.resLocal => m
  | ConflictResolution.resRemote =>
    match c.remoteItem with
    | some rh => mapSet m c.id rh
    | none => mapDelete m c.id
  | ConflictResolution.resMerge =>
    match c.localItem, c.remoteItem with
    | some lh, some rh => mapSet m c.id (mergeHabitItems lh rh now)
    | _, _ => m
  | ConflictResolution.resManual => m

/-- SyncManager.resolveConflicts, on the local snapshot it fetches: reject
mismatched lengths, then fold the per-conflict resolutions over the map of
local records and collect the map values, stamping lastSync now. The
source then writes this snapshot to both stores. -/
def resolveConflicts (localData : HabitsData) (conflicts : List ConflictInfo)
    (resolutions : List ConflictResolution) (now : Int) : Except String HabitsData :=
  if conflicts.length ≠ resolutions.length then
    Except.error "conflict and resolution counts differ"
  else
    let m0 := buildHabitMap localData.habits
    let mf := (conflicts.zip resolutions).foldl
      (fun m p => applyResolution m p.1 p.2 now) m0
    Except.ok { localData with habits := mf.map (·.2), lastSync := now }

/-- Ids of values reachable by applyResolution: the previous map values
plus, for well-keyed conflicts, the conflict id itself. -/
theorem applyResolution_value_ids {m : List (String × HabitItem)} {c : ConflictInfo}
    {r : ConflictResolution} {now : Int} {p : String × HabitItem}
    (hwf : (∀ x, c.localItem = some x → x.id = c.id)
      ∧ ∀ x, c.remoteItem = some x → x.id = c.id)
    (hp : p ∈ applyResolution m c r now) :
    p.2 ∈ m.map (·.2) ∨ p.2.id = c.id := by
  cases r with
  | resLocal => exact Or.inl (List.mem_map.2 ⟨p, hp, rfl⟩)
  | resManual => exact Or.inl (List.mem_map.2 ⟨p, hp, rfl⟩)
  | resRemote =>
    cases hrem : c.remoteItem with
    | some rh =>
      rw [applyResolution, hrem] at hp
      rcases mem_mapSet hp with h | h
      · right
        rw [h]
        exact hwf.2 rh hrem
      · exact Or.inl (List.mem_map.2 ⟨p, h, rfl⟩)
    | none =>
      rw [applyResolution, hrem] at hp
      exact Or.inl (List.mem_map.2 ⟨p, List.mem_of_mem_filter hp, rfl⟩)
  | resMerge =>
    cases hloc : c.localItem with
    | none =>
      rw [applyResolution, hloc] at hp
      exact Or.inl (List.mem_map.2 ⟨p, hp, rfl⟩)
    | some lh =>
      cases hrem : c.remoteItem with
      | none =>
        rw [applyResolution, hloc, hrem] at hp
        exact Or.inl (List.mem_map.2 ⟨p, hp, rfl⟩)
      | some rh =>
        rw [applyResolution, hloc, hrem] at hp
        rcases mem_mapSet hp with h | h
        · right
          rw [h]
          unfold mergeHabitItems
          by_cases hcmp : habitTime rh ≤ habitTime lh
          · simp only [if_pos hcmp]
            exact hwf.1 lh hloc
          · simp only [if_neg hcmp]
            exact hwf.2 rh hrem
        · exact Or.inl (List.mem_map.2 ⟨p, h, rfl⟩)

/-- C10: the snapshot resolveConflicts produces contains only records whose
id was in the local snapshot or belongs to one of the conflicts being
resolved; a record present only remotely and part of no conflict never
appears, since resolveConflicts starts from the local record map. The
well-keying hypothesis holds of every detectConflicts output, whose local
and remote entries are the map values at the conflict id. -/
theorem resolveConflicts_ids_from_local (localData : HabitsData)
    (conflicts : List ConflictInfo) (resolutions : List ConflictResolution)
    (now : Int) (d : HabitsData)
    (hwf : ∀ c ∈ conflicts, (∀ x, c.localItem = some x → x.id = c.id)
      ∧ ∀ x, c.remoteItem = some x → x.id = c.id)
    (hok : resolveConflicts localData conflicts resolutions now = Except.ok d) :
    ∀ h ∈ d.habits, hasId localData.habits h.id = true
      ∨ ∃ c ∈ conflicts, c.id = h.id := by
  unfold resolveConflicts at hok
  by_cases hlen : conflicts.length ≠ resolutions.length
  · rw [if_pos hlen] at hok
    cases hok
  · rw [if_neg hlen] at hok
    have hd : d.habits = ((conflicts.zip resolutions).foldl
        (fun m p => applyResolution m p.1 p.2 now)
        (buildHabitMap localData.habits)).map (·.2) := by
      cases hok
      rfl
    have Hfold : ∀ (ps : List (ConflictInfo × ConflictResolution))
        (m : List (String × HabitItem)),
        (∀ q ∈ ps, q.1 ∈ conflicts) →
        (∀ v ∈ m.map (·.2), hasId localData.habits v.id = true
          ∨ ∃ c ∈ conflicts, c.id = v.id) →
        ∀ v ∈ (ps.foldl (fun m p => applyResolution m p.1 p.2 now) m).map (·.2),
          hasId localData.habits v.id = true ∨ ∃ c ∈ conflicts, c.id = v.id := by
      intro ps
      induction ps with
      | nil => intro m _ hm; exact hm
      | cons q t ih =>
        intro m hq hm
        refine ih (applyResolution m q.1 q.2 now)
          (fun r hr => hq r (List.mem_cons_of_mem _ hr)) ?_
        intro v hv
        rcases List.mem_map.1 hv with ⟨p, hp, hpv⟩
        have hqc : q.1 ∈ conflicts := hq q (List.mem_cons_self _ _)
        rcases applyResolution_value_ids (hwf q.1 hqc) hp with h | h
        · exact hm v (hpv ▸ h)
        · right
          exact ⟨q.1, hqc, by rw [← hpv, h]⟩
    intro h hmem
    rw [hd] at hmem
    refine Hfold (conflicts.zip resolutions) (buildHabitMap localData.habits)
      (fun q hq => List.of_mem_zip hq |>.1) ?_ h hmem
    intro v hv
    rcases List.mem_map.1 hv with ⟨p, hp, hpv⟩
    left
    have := buildHabitMap_entry hp
    exact hasId_iff.2 ⟨p.2, this.2, by rw [hpv]⟩

/-- Concrete inputs witnessing C10: one local record a and one conflict on
id b resolved by adopting the remote record. -/
def c10Local : HabitsData :=
  { version := "1.0", lastSync := 0, lastResetDate := "d",
    habits := [{ id := "a", text := "x", completed := false, hidden := false,
                 createdAt := 0, updatedAt := some 0 }],
    settings := baseSettings }

/-- The remote record of the witness conflict. -/
def c10RemoteItem : HabitItem :=
  { id := "b", text := "y", completed := true, hidden := false,
    createdAt := 1, updatedAt := some 1 }

/-- The witness conflict on id b. -/
def c10Conflict : ConflictInfo :=
  { id := "b", type := ConflictType.modify,
    localItem := some { id := "b", text := "z", completed := false, hidden := false,
                        createdAt := 1, updatedAt := some 0 },
    remoteItem := some c10RemoteItem,
    timestampLocal := 0, timestampRemote := 1 }

/-- The snapshot the witness resolution produces. -/
def c10Resolved : HabitsData :=
  { version := "1.0", lastSync := 7, lastResetDate := "d",
    habits := [{ id := "a", text := "x", completed := false, hidden := false,
                 createdAt := 0, updatedAt := some 0 },
               c10RemoteItem],
    settings := baseSettings }

/-- Witness instantiating C10 at the concrete resolution and at the
adopted remote record. -/
theorem resolveConflicts_ids_from_local_witness :
    hasId c10Local.habits c10RemoteItem.id = true
      ∨ ∃ c ∈ [c10Conflict], c.id = c10RemoteItem.id :=
  resolveConflicts_ids_from_local c10Local [c10Conflict]
    [ConflictResolution.resRemote] 7 c10Resolved
    (by intro c hc
        rw [List.mem_singleton] at hc
        subst hc
        exact ⟨fun x hx => by cases hx; rfl, fun x hx => by cases hx; rfl⟩)
    rfl
    c10RemoteItem (by decide)

/-! Text encoding (GitHubClient.encodeToBase64 / decodeFromBase64 of
src/lib/github-client.ts and encodeUTF8ToBase64 / decodeBase64ToUTF8 of
src/lib/encoding-utils.ts). The platform primitives are modelled by their
specified behaviour: TextEncoder().encode is the UTF-8 encoding of the
scalar values of the string, btoa is standard Base64 over the byte-valued
binary string, atob its inverse, and TextDecoder(utf-8) the strict UTF-8
decoding, rendered here as an Option so that the invalid-input replacement
policy never has to be exercised. The catch fallbacks in the sources
implement the same encoding a second way and are not separate branches of
the model. Bytes are Nat values below 256. -/

/-- UTF-8 encoding of one scalar value. -/
def utf8EncodeCharNat (n : Nat) : List Nat :=
  if n < 0x80 then [n]
  else if n < 0x800 then [0xC0 + n / 64, 0x80 + n % 64]
  else if n < 0x10000 then [0xE0 + n / 4096, 0x80 + n / 64 % 64, 0x80 + n % 64]
  else [0xF0 + n / 262144, 0x80 + n / 4096 % 64, 0x80 + n / 64 % 64, 0x80 + n % 64]

/-- The byte list new TextEncoder().encode(text) produces. -/
def utf8Encode (s : List Char) : List Nat :=
  s.flatMap (fun c => utf8EncodeCharNat c.toNat)

/-- Scalar value of a two-byte sequence. -/
def utf8Val2 (b0 b1 : Nat) : Nat := (b0 - 0xC0) * 64 + (b1 - 0x80)

/-- Scalar value of a three-byte sequence. -/
def utf8Val3 (b0 b1 b2 : Nat) : Nat := (b0 - 0xE0) * 4096 + (b1 - 0x80) * 64 + (b2 - 0x80)

/-- Scalar value of a four-byte sequence. -/
def utf8Val4 (b0 b1 b2 b3 : Nat) : Nat :=
  (b0 - 0xF0) * 262144 + (b1 - 0x80) * 4096 + (b2 - 0x80) * 64 + (b3 - 0x80)

/-- A continuation byte lies in 0x80..0xBF. -/
def utf8Cont (b : Nat) : Prop := 0x80 ≤ b ∧ b < 0xC0

instance (b : Nat) : Decidable (utf8Cont b) := by unfold utf8Cont; infer_instance

/-- Strict UTF-8 decoding, as performed by TextDecoder(utf-8) on valid
input: leading-byte dispatch, continuation-byte checks, and rejection of
overlong forms, surrogates and out-of-range values. -/
def utf8Decode : List Nat → Option (List Char)
  | [] => some []
  | b0 :: rest =>
    if b0 < 0x80 then
      (utf8Decode rest).map (fun cs => Char.ofNat b0 :: cs)
    else if b0 < 0xE0 then
      if 1 ≤ rest.length ∧ 0xC2 ≤ b0 ∧ utf8Cont (rest.getD 0 0) then
        (utf8Decode (rest.drop 1)).map
          (fun cs => Char.ofNat (utf8Val2 b0 (rest.getD 0 0)) :: cs)
      else none
    else if b0 < 0xF0 then
      if 2 ≤ rest.length ∧ utf8Cont (rest.getD 0 0) ∧ utf8Cont (rest.getD 1 0)
          ∧ 0x800 ≤ utf8Val3 b0 (rest.getD 0 0) (rest.getD 1 0)
          ∧ (utf8Val3 b0 (rest.getD 0 0) (rest.getD 1 0) < 0xD800
             ∨ 0xDFFF < utf8Val3 b0 (rest.getD 0 0) (rest.getD 1 0)) then
        (utf8Decode (rest.drop 2)).map
          (fun cs => Char.ofNat (utf8Val3 b0 (rest.getD 0 0) (rest.getD 1 0)) :: cs)
      else none
    else
      if 3 ≤ rest.length ∧ b0 < 0xF5 ∧ utf8Cont (rest.getD 0 0) ∧ utf8Cont (rest.getD 1 0)
          ∧ utf8Cont (rest.getD 2 0)
          ∧ 0x10000 ≤ utf8Val4 b0 (rest.getD 0 0) (rest.getD 1 0) (rest.getD 2 0)
          ∧ utf8Val4 b0 (rest.getD 0 0) (rest.getD 1 0) (rest.getD 2 0) < 0x110000 then
        (utf8Decode (rest.drop 3)).map
          (fun cs => Char.ofNat (utf8Val4 b0 (rest.getD 0 0) (rest.getD 1 0) (rest.getD 2 0)) :: cs)
      else none
  termination_by l => l.length
  decreasing_by
    · simp
    · simp [List.length_drop]; omega
    · simp [List.length_drop]; omega
    · simp [List.length_drop]; omega

/-- Decoding after encoding one scalar peels off exactly that character. -/
theorem utf8Decode_encodeChar (c : Char) (rest : List Nat) :
    utf8Decode (utf8EncodeCharNat c.toNat ++ rest)
      = (utf8Decode rest).map (fun cs => c :: cs) := by
  have hv : c.toNat < 0xd800 ∨ (0xdfff < c.toNat ∧ c.toNat < 0x110000) := c.valid
  have hofn : Char.ofNat c.toNat = c := Char.ofNat_toNat c
  set n := c.toNat with hn
  by_cases h1 : n < 0x80
  · rw [utf8EncodeCharNat, if_pos h1]
    simp only [List.cons_append, List.nil_append]
    rw [utf8Decode.eq_def]
    dsimp only
    rw [if_pos h1, hofn]
  · by_cases h2 : n < 0x800
    · rw [utf8EncodeCharNat, if_neg h1, if_pos h2]
      simp only [List.cons_append, List.nil_append]
      rw [utf8Decode.eq_def]
      dsimp only
      simp only [List.length_cons, List.getD_cons_zero, List.getD_cons_succ,
        List.drop_succ_cons, List.drop_zero, utf8Cont, utf8Val2, utf8Val3, utf8Val4]
      rw [if_neg (by omega), if_pos (by omega), if_pos (by omega)]
      have harith : (0xC0 + n / 64 - 0xC0) * 64 + (0x80 + n % 64 - 0x80) = n := by omega
      rw [harith, hofn]
    · by_cases h3 : n < 0x10000
      · rw [utf8EncodeCharNat, if_neg h1, if_neg h2, if_pos h3]
        simp only [List.cons_append, List.nil_append]
        rw [utf8Decode.eq_def]
        dsimp only
        simp only [List.length_cons, List.getD_cons_zero, List.getD_cons_succ,
          List.drop_succ_cons, List.drop_zero, utf8Cont, utf8Val2, utf8Val3, utf8Val4]
        rw [if_neg (by omega), if_neg (by omega), if_pos (by omega)]
        have harith : (0xE0 + n / 4096 - 0xE0) * 4096 + (0x80 + n / 64 % 64 - 0x80) * 64
            + (0x80 + n % 64 - 0x80) = n := by omega
        rw [harith, hofn]
        rw [if_pos (by omega)]
      · rw [utf8EncodeCharNat, if_neg h1, if_neg h2, if_neg h3]
        simp only [List.cons_append, List.nil_append]
        rw [utf8Decode.eq_def]
        dsimp only
        simp only [List.length_cons, List.getD_cons_zero, List.getD_cons_succ,
          List.drop_succ_cons, List.drop_zero, utf8Cont, utf8Val2, utf8Val3, utf8Val4]
        rw [if_neg (by omega), if_neg (by omega), if_neg (by omega), if_pos (by omega)]
        have harith : (0xF0 + n / 262144 - 0xF0) * 262144 + (0x80 + n / 4096 % 64 - 0x80) * 4096
            + (0x80 + n / 64 % 64 - 0x80) * 64 + (0x80 + n % 64 - 0x80) = n := by omega
        rw [harith, hofn]

/-- C8 core: UTF-8 decoding inverts UTF-8 encoding on every string. -/
theorem utf8Decode_utf8Encode (s : List Char) : utf8Decode (utf8Encode s) = some s := by
  induction s with
  | nil =>
    rw [show utf8Encode [] = ([] : List Nat) from rfl, utf8Decode.eq_def]
  | cons c t ih =>
    rw [utf8Encode, List.flatMap_cons]
    rw [show List.flatMap t (fun c => utf8EncodeCharNat c.toNat) = utf8Encode t from rfl]
    rw [utf8Decode_encodeChar, ih]
    rfl

/-- Every UTF-8 byte is below 256. -/
theorem utf8Encode_lt (s : List Char) : ∀ b ∈ utf8Encode s, b < 256 := by
  intro b hb
  rw [utf8Encode, List.mem_flatMap] at hb
  rcases hb with ⟨c, -, hb⟩
  have hv : c.toNat < 0xd800 ∨ (0xdfff < c.toNat ∧ c.toNat < 0x110000) := c.valid
  unfold utf8EncodeCharNat at hb
  split_ifs at hb <;>
    simp only [List.mem_cons, List.not_mem_nil, or_false] at hb <;> omega

/-- The Base64 alphabet used by btoa and atob. -/
def base64Alphabet : List Char :=
  "ABCDEFGHIJKLMNOPQRSTUVWXYZabcdefghijklmnopqrstuvwxyz0123456789+/".data

/-- Alphabet character of a 6-bit group. -/
def b64Char (n : Nat) : Char :=
  base64Alphabet.getD n 'A'

/-- Position of a character in the alphabet, none for padding or foreign
characters. -/
def b64Index (c : Char) : Option Nat :=
  List.indexOf? c base64Alphabet

/-- btoa on the byte-valued binary string: 6-bit groups, = padded. -/
def base64Encode : List Nat → List Char
  | [] => []
  | [b0] => [b64Char (b0 / 4), b64Char (b0 % 4 * 16), '=', '=']
  | [b0, b1] => [b64Char (b0 / 4), b64Char (b0 % 4 * 16 + b1 / 16), b64Char (b1 % 16 * 4), '=']
  | b0 :: b1 :: b2 :: bs =>
    b64Char (b0 / 4) :: b64Char (b0 % 4 * 16 + b1 / 16) ::
      b64Char (b1 % 16 * 4 + b2 / 64) :: b64Char (b2 % 64) :: base64Encode bs

/-- atob: decode 4-character groups back to bytes, with = padding accepted
only at the very end. -/
def base64Decode : List Char → Option (List Nat)
  | [] => some []
  | c0 :: c1 :: c2 :: c3 :: rest =>
    match b64Index c0, b64Index c1 with
    | some n0, some n1 =>
      if c2 = '=' then
        if c3 = '=' ∧ rest = [] then some [n0 * 4 + n1 / 16] else none
      else
        match b64Index c2 with
        | some n2 =>
          if c3 = '=' then
            if rest = [] then some [n0 * 4 + n1 / 16, n1 % 16 * 16 + n2 / 4] else none
          else
            match b64Index c3 with
            | some n3 =>
              (base64Decode rest).map
                (fun bs => (n0 * 4 + n1 / 16) :: (n1 % 16 * 16 + n2 / 4)
                  :: (n2 % 4 * 64 + n3) :: bs)
            | none => none
        | none => none
    | _, _ => none
  | _ => none

/-- The newline strip base64.replace of decodeFromBase64. -/
def stripNewlines (cs : List Char) : List Char :=
  cs.filter (fun c => !(c == '\x0a'))

theorem b64Index_b64Char : ∀ n, n < 64 → b64Index (b64Char n) = some n := by
  decide

theorem b64Char_mem (n : Nat) : b64Char n ∈ base64Alphabet := by
  by_cases h : n < base64Alphabet.length
  · rw [b64Char, List.getD_eq_getElem _ _ h]
    exact List.getElem_mem h
  · rw [b64Char, List.getD_eq_default _ _ (le_of_not_lt h)]
    decide

theorem b64Char_ne_eq (n : Nat) : b64Char n ≠ '=' := by
  intro h
  exact (by decide : ('=' : Char) ∉ base64Alphabet) (h ▸ b64Char_mem n)

theorem b64Char_ne_newline (n : Nat) : b64Char n ≠ '\x0a' := by
  intro h
  exact (by decide : ('\x0a' : Char) ∉ base64Alphabet) (h ▸ b64Char_mem n)

/-- Every character btoa emits is an alphabet character or padding. -/
theorem mem_base64Encode : ∀ (bs : List Nat) (c : Char), c ∈ base64Encode bs →
    c ∈ base64Alphabet ∨ c = '='
  | [], c, h => absurd h (by simp [base64Encode])
  | [b0], c, h => by
    simp only [base64Encode, List.mem_cons, List.not_mem_nil, or_false] at h
    rcases h with rfl | rfl | rfl | rfl
    · exact Or.inl (b64Char_mem _)
    · exact Or.inl (b64Char_mem _)
    · exact Or.inr rfl
    · exact Or.inr rfl
  | [b0, b1], c, h => by
    simp only [base64Encode, List.mem_cons, List.not_mem_nil, or_false] at h
    rcases h with rfl | rfl | rfl | rfl
    · exact Or.inl (b64Char_mem _)
    · exact Or.inl (b64Char_mem _)
    · exact Or.inl (b64Char_mem _)
    · exact Or.inr rfl
  | b0 :: b1 :: b2 :: bs, c, h => by
    simp only [base64Encode, List.mem_cons] at h
    rcases h with rfl | rfl | rfl | rfl | h
    · exact Or.inl (b64Char_mem _)
    · exact Or.inl (b64Char_mem _)
    · exact Or.inl (b64Char_mem _)
    · exact Or.inl (b64Char_mem _)
    · exact mem_base64Encode bs c h

/-- btoa output holds no newline, so the replace of the decoder is the
identity on it. -/
theorem stripNewlines_base64Encode (bs : List Nat) :
    stripNewlines (base64Encode bs) = base64Encode bs := by
  rw [stripNewlines, List.filter_eq_self]
  intro c hc
  rcases mem_base64Encode bs c hc with h | rfl
  · simp only [Bool.not_eq_eq_eq_not, Bool.not_true, beq_eq_false_iff_ne, ne_eq]
    intro h'
    exact (by decide : ('\x0a' : Char) ∉ base64Alphabet) (h' ▸ h)
  · decide

/-- atob inverts btoa on every byte list. -/
theorem base64Decode_base64Encode : ∀ (bs : List Nat), (∀ b ∈ bs, b < 256) →
    base64Decode (base64Encode bs) = some bs
  | [], _ => rfl
  | [b0], h => by
    have hb0 : b0 < 256 := h b0 (by simp)
    have e1 : b0 / 4 * 4 + b0 % 4 * 16 / 16 = b0 := by omega
    simp only [base64Encode, base64Decode]
    rw [b64Index_b64Char _ (by omega), b64Index_b64Char _ (by omega)]
    simp <;> omega
  | [b0, b1], h => by
    have hb0 : b0 < 256 := h b0 (by simp)
    have hb1 : b1 < 256 := h b1 (by simp)
    have e1 : b0 / 4 * 4 + (b0 % 4 * 16 + b1 / 16) / 16 = b0 := by omega
    have e2 : (b0 % 4 * 16 + b1 / 16) % 16 * 16 + b1 % 16 * 4 / 4 = b1 := by omega
    simp only [base64Encode, base64Decode]
    rw [b64Index_b64Char _ (by omega), b64Index_b64Char _ (by omega),
      b64Index_b64Char _ (by omega)]
    simp [b64Char_ne_eq] <;> omega
  | b0 :: b1 :: b2 :: bs, h => by
    have hb0 : b0 < 256 := h b0 (by simp)
    have hb1 : b1 < 256 := h b1 (by simp)
    have hb2 : b2 < 256 := h b2 (by simp)
    have ih := base64Decode_base64Encode bs (fun b hb => h b (by simp [hb]))
    have e1 : b0 / 4 * 4 + (b0 % 4 * 16 + b1 / 16) / 16 = b0 := by omega
    have e2 : (b0 % 4 * 16 + b1 / 16) % 16 * 16 + (b1 % 16 * 4 + b2 / 64) / 4 = b1 := by omega
    have e3 : (b1 % 16 * 4 + b2 / 64) % 4 * 64 + b2 % 64 = b2 := by omega
    simp only [base64Encode, base64Decode]
    rw [b64Index_b64Char _ (by omega), b64Index_b64Char _ (by omega),
      b64Index_b64Char _ (by omega), b64Index_b64Char _ (by omega), ih]
    simp [b64Char_ne_eq] <;> omega

/-- GitHubClient.encodeToBase64: UTF-8 bytes of the string, then btoa. -/
def encodeToBase64 (s : String) : String :=
  String.mk (base64Encode (utf8Encode s.data))

/-- GitHubClient.decodeFromBase64: strip newlines, atob, then decode the
bytes as UTF-8. -/
def decodeFromBase64 (b : String) : Option String :=
  (base64Decode (stripNewlines b.data)).bind
    (fun bytes => (utf8Decode bytes).map String.mk)

/-- encodeUTF8ToBase64 of src/lib/encoding-utils.ts: same pipeline as
GitHubClient.encodeToBase64. -/
def encodeUTF8ToBase64 (s : String) : String :=
  String.mk (base64Encode (utf8Encode s.data))

/-- decodeBase64ToUTF8 of src/lib/encoding-utils.ts: same pipeline as
GitHubClient.decodeFromBase64. -/
def decodeBase64ToUTF8 (b : String) : Option String :=
  (base64Decode (stripNewlines b.data)).bind
    (fun bytes => (utf8Decode bytes).map String.mk)

/-- C8: decoding the Base64 encoding returns the original string exactly,
for every string and through both encoder pairs. -/
theorem base64_roundtrip (s : String) :
    decodeFromBase64 (encodeToBase64 s) = some s
    ∧ decodeBase64ToUTF8 (encodeUTF8ToBase64 s) = some s := by
  have h : (base64Decode (stripNewlines (base64Encode (utf8Encode s.data)))).bind
      (fun bytes => (utf8Decode bytes).map String.mk) = some s := by
    rw [stripNewlines_base64Encode]
    rw [base64Decode_base64Encode _ (utf8Encode_lt s.data)]
    show (utf8Decode (utf8Encode s.data)).map String.mk = some s
    rw [utf8Decode_utf8Encode]
    rfl
  exact ⟨h, h⟩

end Habits
